import Mathlib

/-!
Shallow embedding of the core of `zenith-john/lox-in-rust` (bytecode
compiler + virtual machine) and proofs about it.

Source files embedded here: `src/object.rs` (value model: equality,
display), `src/chunk.rs` (byte buffer, constant pool, jump decoding),
`src/compile.rs` (constant-pool cap, jump emission and patching,
`if_statement` lowering, upvalue deduplication, local resolution,
`Scope::init`), `src/vm.rs` (dispatch for the opcodes the theorems
exercise, `close_upvalues`, the `OP_RETURN` closing loop, `OP_CLOSURE`
capture, `OP_GET_UPVALUE` / `OP_SET_UPVALUE`, `OP_SET_GLOBAL`,
`VM::call`).

Modelling conventions:
* Rust `Vec` becomes `List` with the vector's index 0 at the head, so
  `push` appends at the end and the stack top is the last element.
* `Rc<RefCell<Upvalue>>` cells become indices (`CellId`) into an explicit
  heap `List Upvalue`; sharing an `Rc` is sharing the index.
* `HashMap` becomes an association list (`alistLookup` models `get`,
  consing models `insert`) or, for the globals table, a function
  `String → Option Value` where `insert` is pointwise update.
* `f64` becomes Lean `Float`; none of the embedded operations below ever
  compares two floats (the source's `PartialEq` has no `Number` arm), so
  no IEEE reasoning is required.
* Rust panics (index out of bounds, pop from empty `Vec`) are modelled by
  `Option.none` results or by a default value, and are never reached in
  the concrete runs proved below.
* The constant `USIZE` is declared in the crate root, which is absent
  from the given sources (the shipped `main.rs` predates the VM and does
  not define it); its value is forced to 8 by
  `usize::from_ne_bytes(bytes : [u8; USIZE])` in `Chunk::read_jump` on
  the 64-bit targets the crate builds for, where native byte order is
  little-endian.
-/

namespace Lox

/-- Width in bytes of a jump operand (`USIZE` in the crate root; see the
module comment: forced to 8 by `usize::from_ne_bytes`). -/
def USIZE : Nat := 8

/-- Runtime values, from `enum LoxType` in `src/object.rs`.  The
`Function`, `Closure`, `Class` and `Instance` payloads are reduced to the
single field that the embedded operations (`PartialEq`, `Display`,
truthiness) read: the function name (`Closure` prints
`c.function.name`), the class name, and the instance's class name
(`i.borrow().klass.name`).  `arity`, `upvalue` and `chunk` are carried
separately where needed (see `call` and `CChunk`).  Constructor `cls`
stands for `Class` and `inst` for `Instance` (Lean keywords). -/
inductive LoxType where
  | none : LoxType
  | string (s : String) : LoxType
  | number (n : Float) : LoxType
  | bool (b : Bool) : LoxType
  | function (name : String) : LoxType
  | closure (name : String) : LoxType
  | cls (name : String) : LoxType
  | inst (className : String) : LoxType

abbrev Value := LoxType

/-- `LoxType::as_string` from `src/object.rs`. -/
def LoxType.asString : LoxType → Option String
  | .string s => some s
  | _ => Option.none

/-- `impl PartialEq for LoxType` from `src/object.rs` lines 60-68: only
`String`/`String` and `Bool`/`Bool` pairs are compared; every other pair
— including two `Number`s — falls through the wildcard arm to `false`. -/
def loxEq : LoxType → LoxType → Bool
  | .string s1, .string s2 => s1 == s2
  | .bool b1, .bool b2 => b1 == b2
  | _, _ => false

/-- The falsiness test the VM inlines both at `OP_NOT` (vm.rs 221-229)
and at `OP_JUMP_IF_FALSE` (vm.rs 310-320): `None → true`,
`Bool(x) → !x`, everything else `→ false`. -/
def isFalsey : LoxType → Bool
  | .none => true
  | .bool x => !x
  | _ => false

/-- `impl Display for LoxType` from `src/object.rs` lines 45-58,
parameterised by the host formatting of `f64` (Rust
`write!("{}", n)`). -/
def display (numFmt : Float → String) : LoxType → String
  | .string s => s
  | .number n => numFmt n
  | .bool b => cond b "true" "false"
  | .function name => name
  | .closure name => name
  | .cls name => name
  | .inst className => "Instance of " ++ className
  | .none => "Nil"

/-- A chunk, from `struct Chunk` in `src/chunk.rs`: instruction bytes and
the constant pool (the parallel `lines` table is not read by any theorem
below and is omitted). -/
structure CChunk where
  code : List Nat
  constants : List Value

/-- Opcode bytes from `src/chunk.rs` lines 5-39. -/
def OP_RETURN : Nat := 0
def OP_CONSTANT : Nat := 1
def OP_NIL : Nat := 7
def OP_TRUE : Nat := 8
def OP_FALSE : Nat := 9
def OP_NOT : Nat := 10
def OP_EQUAL : Nat := 11
def OP_PRINT : Nat := 14
def OP_POP : Nat := 15
def OP_JUMP_IF_FALSE : Nat := 21
def OP_JUMP : Nat := 22

/-- `Chunk::read_chunk`: bounds-checked byte read (`get?` is `none`
exactly when `pos ≥ code.len()`, the source's error condition). -/
def readChunkB (code : List Nat) (pos : Nat) : Except String Nat :=
  match code.get? pos with
  | some b => .ok b
  | Option.none => .error "Index out of Chunk"

/-- The byte-gathering loop of `Chunk::read_jump` fused with the
little-endian recombination performed by `usize::from_ne_bytes` on the
crate's little-endian targets: byte at `pos` is least significant; the
first out-of-range position aborts with the error of `read_chunk`
(the `?` operator). -/
def readJumpAux (code : List Nat) : Nat → Nat → Except String Nat
  | _, 0 => .ok 0
  | pos, w + 1 =>
    match readChunkB code pos with
    | .error e => .error e
    | .ok b =>
      match readJumpAux code (pos + 1) w with
      | .error e => .error e
      | .ok r => .ok (b + 256 * r)

/-- `Chunk::read_jump` (src/chunk.rs lines 91-97). -/
def readJump (code : List Nat) (pos : Nat) : Except String Nat :=
  readJumpAux code pos USIZE

/-- Little-endian byte decomposition of `n` into `w` bytes, as
`usize::to_ne_bytes` produces on the crate's little-endian targets. -/
def toLEBytes : Nat → Nat → List Nat
  | 0, _ => []
  | w + 1, n => n % 256 :: toLEBytes w (n / 256)

/-- Direct little-endian value of a byte list (specification-side
decoder, used to characterise `readJump`). -/
def fromLE (bs : List Nat) : Nat :=
  bs.foldr (fun b acc => b + 256 * acc) 0

/-- The `modify_chunk` loop of `Parser::patch_jump`: overwrite
consecutive bytes starting at `pos`. -/
def writeBytes : List Nat → Nat → List Nat → List Nat
  | code, _, [] => code
  | code, pos, b :: bs => writeBytes (code.set pos b) (pos + 1) bs

/-- `Chunk::add_constant`: append to the pool, return the new index. -/
def addConstant (c : CChunk) (v : Value) : CChunk × Nat :=
  ({ c with constants := c.constants ++ [v] }, c.constants.length)

/-- `Parser::make_constant` (src/compile.rs lines 345-356): add the
constant, then fail when the resulting index does not fit in one byte. -/
def makeConstant (c : CChunk) (v : Value) : Except String (CChunk × Nat) :=
  let r := addConstant c v
  if r.2 ≥ 256 then .error "Too many constants" else .ok r

/-- `Parser::emit_byte` (the `lines` table is omitted, see `CChunk`). -/
def emitByte (c : CChunk) (b : Nat) : CChunk :=
  { c with code := c.code ++ [b] }

/-- `Parser::emit_bytes`. -/
def emitBytes (c : CChunk) (b1 b2 : Nat) : CChunk :=
  emitByte (emitByte c b1) b2

/-- `Parser::emit_constant`: make the constant and emit
`OP_CONSTANT idx`. -/
def emitConstant (c : CChunk) (v : Value) : Except String CChunk := do
  let r ← makeConstant c v
  .ok (emitBytes r.1 OP_CONSTANT r.2)

/-- `Parser::emit_jump` (src/compile.rs lines 582-588): emit the opcode,
then `USIZE` placeholder `0xff` bytes; return the operand position. -/
def emitJump (c : CChunk) (op : Nat) : CChunk × Nat :=
  let c := emitByte c op
  let c := (List.range USIZE).foldl (fun acc _ => emitByte acc 0xff) c
  (c, c.code.length - USIZE)

/-- `Parser::patch_jump` (src/compile.rs lines 599-606): the distance
from the byte after the operand to the current end, written back over the
placeholder in little-endian order. -/
def patchJump (c : CChunk) (offset : Nat) : CChunk :=
  let jump := c.code.length - offset - USIZE
  { c with code := writeBytes c.code offset (toLEBytes USIZE jump) }

/-- `Parser::if_statement` (src/compile.rs lines 561-580), with the
recursive calls `expression()` / `statement()` abstracted as
chunk-transformers (the source emits them inline into the same chunk).
`elseB = Option.none` is the path where `match_advance(Else)` fails: the
jump is patched and no `OP_POP` is emitted for the false branch. -/
def ifStatement (cond thenB : CChunk → Except String CChunk)
    (elseB : Option (CChunk → Except String CChunk)) (c : CChunk) :
    Except String CChunk := do
  let c ← cond c
  let r := emitJump c OP_JUMP_IF_FALSE
  let thenJump := r.2
  let c := emitByte r.1 OP_POP
  let c ← thenB c
  match elseB with
  | some eb =>
    let r2 := emitJump c OP_JUMP
    let elseJump := r2.2
    let c := patchJump r2.1 thenJump
    let c := emitByte c OP_POP
    let c ← eb c
    .ok (patchJump c elseJump)
  | Option.none => .ok (patchJump c thenJump)

/-- The chunk the compiler emits for the statement `if (false) print 1;`:
condition `false` is `literal()` emitting `OP_FALSE`; the branch is
`print_statement()` emitting the expression then `OP_PRINT`. -/
def ifFalsePrintChunk : Except String CChunk :=
  ifStatement (fun c => .ok (emitByte c OP_FALSE))
    (fun c => do
      let c ← emitConstant c (.number 1)
      .ok (emitByte c OP_PRINT))
    Option.none ⟨[], []⟩

/-- The chunk the compiler emits for `if (x) print A; else print B;`
where `x`, `A`, `B` are constants (in pool order of first use). -/
def ifElseChunk (x a b : Value) : Except String CChunk :=
  ifStatement (fun c => emitConstant c x)
    (fun c => do
      let c ← emitConstant c a
      .ok (emitByte c OP_PRINT))
    (some (fun c => do
      let c ← emitConstant c b
      .ok (emitByte c OP_PRINT)))
    ⟨[], []⟩

/-- VM execution state for a single frame of the dispatch loop: the
instruction pointer, the value stack (index 0 at the head, top at the
end, as in `Vec<Value>`), and the values printed so far (`OP_PRINT`
writes to stdout; we record the popped value). -/
structure VMState where
  ip : Nat
  stack : List Value
  output : List Value
deriving Inhabited

/-- `VM::peek(distance)`: `stack[len - 1 - distance]`; out-of-range (a
Rust panic) yields `Nil` here, never reached in the runs proved below. -/
def peekVal (stack : List Value) (distance : Nat) : Value :=
  (stack.get? (stack.length - 1 - distance)).getD .none

/-- One-frame fragment of `VM::run`'s dispatch loop (src/vm.rs lines
126-482) covering the opcodes exercised by the theorems below:
`OP_CONSTANT`, `OP_NIL`, `OP_TRUE`, `OP_FALSE`, `OP_NOT`, `OP_EQUAL`,
`OP_PRINT`, `OP_POP`, `OP_JUMP_IF_FALSE`, `OP_JUMP`.  Each iteration
fetches `op = code[ip]; ip += 1` and dispatches; operand fetches mirror
`read_chunk` / `read_jump`.  `Option.none` signals a runtime error, a
pop from an empty stack, an unknown opcode, or fuel exhaustion. -/
def run (fuel : Nat) (ch : CChunk) (s : VMState) : Option VMState :=
  match fuel with
  | 0 => Option.none
  | fuel + 1 =>
    if h : s.ip < ch.code.length then
      let op := ch.code.get ⟨s.ip, h⟩
      let ip := s.ip + 1
      if op = OP_CONSTANT then
        match readChunkB ch.code ip with
        | .error _ => Option.none
        | .ok off =>
          match ch.constants.get? off with
          | Option.none => Option.none
          | some v => run fuel ch ⟨ip + 1, s.stack ++ [v], s.output⟩
      else if op = OP_NIL then
        run fuel ch ⟨ip, s.stack ++ [LoxType.none], s.output⟩
      else if op = OP_TRUE then
        run fuel ch ⟨ip, s.stack ++ [LoxType.bool true], s.output⟩
      else if op = OP_FALSE then
        run fuel ch ⟨ip, s.stack ++ [LoxType.bool false], s.output⟩
      else if op = OP_NOT then
        match s.stack.getLast? with
        | Option.none => Option.none
        | some x =>
          run fuel ch ⟨ip, s.stack.dropLast ++ [LoxType.bool (isFalsey x)], s.output⟩
      else if op = OP_EQUAL then
        match s.stack.getLast? with
        | Option.none => Option.none
        | some left =>
          let stack := s.stack.dropLast
          match stack.getLast? with
          | Option.none => Option.none
          | some right =>
            run fuel ch ⟨ip, stack.dropLast ++ [LoxType.bool (loxEq left right)], s.output⟩
      else if op = OP_PRINT then
        match s.stack.getLast? with
        | Option.none => Option.none
        | some x => run fuel ch ⟨ip, s.stack.dropLast, s.output ++ [x]⟩
      else if op = OP_POP then
        match s.stack.getLast? with
        | Option.none => Option.none
        | some _ => run fuel ch ⟨ip, s.stack.dropLast, s.output⟩
      else if op = OP_JUMP_IF_FALSE then
        match readJump ch.code ip with
        | .error _ => Option.none
        | .ok offset =>
          let ip := ip + USIZE
          if isFalsey (peekVal s.stack 0) then
            run fuel ch ⟨ip + offset, s.stack, s.output⟩
          else
            run fuel ch ⟨ip, s.stack, s.output⟩
      else if op = OP_JUMP then
        match readJump ch.code ip with
        | .error _ => Option.none
        | .ok offset => run fuel ch ⟨ip + USIZE + offset, s.stack, s.output⟩
      else Option.none
    else some s

/-- Runtime upvalue cell, from `enum Upvalue` in `src/object.rs`:
`Stack(usize)` is a still-open pointer into the value stack, `Out(Value)`
the lifted (closed) value.  The source names them `Stack` / `Out`. -/
inductive Upvalue where
  | stack (location : Nat) : Upvalue
  | out (v : Value) : Upvalue

/-- A cell identifier: an index into the cell heap that models the
`Rc<RefCell<Upvalue>>` allocations (two closures holding the same id
share one cell). -/
abbrev CellId := Nat

/-- `HashMap::get` on the `captures : HashMap<usize, Rc<RefCell<Upvalue>>>`
map, modelled as an association list from stack slot to cell id
(insertion conses; keys are unique in every state we build). -/
def alistLookup (l : List (Nat × CellId)) (k : Nat) : Option CellId :=
  (l.find? (fun p => p.1 == k)).map (fun p => p.2)

/-- `HashMap::remove` on the captures map. -/
def alistRemove (l : List (Nat × CellId)) (k : Nat) : List (Nat × CellId) :=
  l.filter (fun p => p.1 != k)

/-- `VM::close_upvalues(slot)` (src/vm.rs lines 484-489), verbatim: if
the captures map holds a cell for `slot`, the cell is overwritten with
`Upvalue::Out(self.peek(0).clone())` — the value at the TOP of the stack,
not at `slot` — and the map entry is removed. -/
def closeUpvalues (slot : Nat) (stack : List Value)
    (captures : List (Nat × CellId)) (heap : List Upvalue) :
    List (Nat × CellId) × List Upvalue :=
  match alistLookup captures slot with
  | some cid =>
    (alistRemove captures slot, heap.set cid (Upvalue.out (peekVal stack 0)))
  | Option.none => (captures, heap)

/-- The closing loop of `OP_RETURN` (src/vm.rs lines 153-155), run after
the return value has been popped: `for i in (slot..stack.len()).rev()
{ close_upvalues(i) }`.  The stack is not modified by the loop. -/
def returnClose (slot : Nat) (stack : List Value)
    (captures : List (Nat × CellId)) (heap : List Upvalue) :
    List (Nat × CellId) × List Upvalue :=
  ((List.range' slot (stack.length - slot)).reverse).foldl
    (fun ch i => closeUpvalues i stack ch.1 ch.2) (captures, heap)

/-- The `is_local == 1` arm of `OP_CLOSURE` capture (src/vm.rs lines
427-436): reuse the cell registered in the captures map for `address` if
present, otherwise allocate a fresh `Open(address)` cell (here: append to
the heap) and register it.  Returns the cell the closure stores. -/
def captureLocal (address : Nat) (captures : List (Nat × CellId))
    (heap : List Upvalue) : CellId × List (Nat × CellId) × List Upvalue :=
  match alistLookup captures address with
  | some cid => (cid, captures, heap)
  | Option.none =>
    (heap.length, (address, heap.length) :: captures, heap ++ [Upvalue.stack address])

/-- `OP_GET_UPVALUE` through a cell (src/vm.rs lines 450-457): an open
cell reads the stack slot, a closed cell reads the stored value.  A
dangling id (a Rust panic) yields `Nil`, never reached below. -/
def getUpvalue (cid : CellId) (stack : List Value) (heap : List Upvalue) : Value :=
  match heap.get? cid with
  | some (.stack location) => (stack.get? location).getD .none
  | some (.out v) => v
  | Option.none => .none

/-- `OP_SET_UPVALUE` through a cell (src/vm.rs lines 458-467): an open
cell writes the stack slot, a closed cell overwrites the stored value.
Returns the new stack and heap. -/
def setUpvalue (cid : CellId) (val : Value) (stack : List Value)
    (heap : List Upvalue) : List Value × List Upvalue :=
  match heap.get? cid with
  | some (.stack location) => (stack.set location val, heap)
  | some (.out _) => (stack, heap.set cid (Upvalue.out val))
  | Option.none => (stack, heap)

/-- Compile-time upvalue descriptor, `struct Upvalue {index, is_local}`
in `src/compile.rs` (named `UpvalueDesc` here to keep it apart from the
runtime cell). -/
structure UpvalueDesc where
  index : Nat
  isLocal : Bool
deriving DecidableEq

/-- The reverse scan of the `add_upvalue!` macro (src/compile.rs lines
278-300): the highest index holding an equal descriptor, if any.
Checking the tail first gives later (higher) indices priority, exactly
as `for i in (0..len).rev()` does. -/
def findRevDesc (d : UpvalueDesc) : List UpvalueDesc → Option Nat
  | [] => Option.none
  | u :: rest =>
    match findRevDesc d rest with
    | some i => some (i + 1)
    | Option.none => if u = d then some 0 else Option.none

/-- `add_upvalue!` (src/compile.rs lines 278-300): return the slot of an
existing equal descriptor, else push and return the new slot. -/
def addUpvalue (ups : List UpvalueDesc) (d : UpvalueDesc) : Nat × List UpvalueDesc :=
  match findRevDesc d ups with
  | some i => (i, ups)
  | Option.none => (ups.length, ups ++ [d])

/-- The runtime error result of a VM step, reduced to its message. -/
abbrev RtErr := String

/-- `OP_SET_GLOBAL` (src/vm.rs lines 280-301).  The globals table is a
function `String → Option Value` (`HashMap<String, Value>`); the operand
constant must be a string name; the value is `peek(0)` and is not
popped.  The source first inserts, then — if `insert` returned `None`,
i.e. the name was unbound — removes the fresh entry again and errors.
The first component is `some msg` on a runtime error; the table and
stack after the step are always returned. -/
def setGlobalStep (constant : Value) (globals : String → Option Value)
    (stack : List Value) :
    Option RtErr × (String → Option Value) × List Value :=
  match constant.asString with
  | Option.none => (some "not a variable name", globals, stack)
  | some name =>
    match stack.getLast? with
    | Option.none => (some "peek from empty stack", globals, stack)
    | some val =>
      let inserted := fun k => if k = name then some val else globals k
      if (globals name).isNone then
        (some "not defined before assignment",
          fun k => if k = name then Option.none else inserted k, stack)
      else
        (Option.none, inserted, stack)

/-- A compile-time local, `struct Local` in `src/compile.rs` lines
983-987.  Tokens are compared through `get_string` in
`identifier_equal`, so a token is modelled by its text. -/
structure Local where
  name : String
  depth : Int
  isCaptured : Bool

/-- Compile-time scope, `struct Scope` in `src/compile.rs` lines
995-999. -/
structure Scope where
  locals : List Local
  depth : Int
  upvalues : List UpvalueDesc

/-- `Scope::init` (src/compile.rs lines 1001-1013): the locals stack is
seeded with one entry at slot 0 holding the given token (the function's
name token, or a dummy for the top level) at depth 0. -/
def Scope.init (token : String) : Scope :=
  { locals := [{ name := token, depth := 0, isCaptured := false }]
    depth := 0
    upvalues := [] }

/-- The reverse scan of `Parser::resolve_local` (src/compile.rs lines
754-768): the highest local slot whose name matches, if any (checking
the tail first gives the top of the locals stack priority). -/
def findLocalRev (name : String) : List Local → Option (Nat × Local)
  | [] => Option.none
  | l :: rest =>
    match findLocalRev name rest with
    | some r => some (r.1 + 1, r.2)
    | Option.none => if l.name = name then some (0, l) else Option.none

/-- `Parser::resolve_local`: on a name match, error when the local is
still in its own initializer (`depth == -1`), else return its slot;
`Option.none` when no local matches (the caller then tries upvalues and
globals). -/
def resolveLocal (name : String) (scope : Scope) : Except String (Option Nat) :=
  match findLocalRev name scope.locals with
  | some r =>
    if r.2.depth = -1 then .error "Can't read local variable in its own identifier"
    else .ok (some r.1)
  | Option.none => .ok Option.none

/-- The frame base computed by `VM::call` (src/vm.rs lines 491-507):
`slot = stack.len() - arg_cnt - 1`, i.e. the stack index of the callee
closure itself (pushed before its arguments), which `OP_GET_LOCAL 0`
then reads. -/
def callSlot (stackLen : Nat) (argCnt : Nat) : Nat :=
  stackLen - argCnt - 1

/-- The code bytes `if_statement` emits for `if (false) print 1;`
(checked against `ifFalsePrintChunk` in the theorems below): `OP_FALSE`,
`OP_JUMP_IF_FALSE 4` (little-endian over 8 bytes), `OP_POP`,
`OP_CONSTANT 0`, `OP_PRINT` — and no `OP_POP` at the jump target. -/
def ifFalseCode : List Nat :=
  [OP_FALSE, OP_JUMP_IF_FALSE, 4, 0, 0, 0, 0, 0, 0, 0, OP_POP,
   OP_CONSTANT, 0, OP_PRINT]

/-- The code bytes `if_statement` emits for `if (x) print A; else
print B;` with constants `[x, A, B]` (checked against `ifElseChunk`
below). -/
def ifElseCode : List Nat :=
  [OP_CONSTANT, 0, OP_JUMP_IF_FALSE, 13, 0, 0, 0, 0, 0, 0, 0, OP_POP,
   OP_CONSTANT, 1, OP_PRINT, OP_JUMP, 4, 0, 0, 0, 0, 0, 0, 0, OP_POP,
   OP_CONSTANT, 2, OP_PRINT]

/-- The VM stack of `outer`'s frame in the program
`fun outer() { var x = "outside"; fun inner() { print x; } return inner; }`
at the moment `OP_RETURN` starts its closing loop (return value already
popped): slot 0 the callee, slot 1 the captured local `x`, slot 2 the
local holding the `inner` closure. -/
def c1Stack : List Value :=
  [LoxType.closure "outer", LoxType.string "outside", LoxType.closure "inner"]

end Lox

namespace Lox

/-! Helper lemmas (shared; none is a claim's theorem, witness or
counterexample). -/

theorem writeBytes_length (bs : List Nat) :
    ∀ (code : List Nat) (pos : Nat), (writeBytes code pos bs).length = code.length := by
  induction bs with
  | nil => intro code pos; rfl
  | cons b bs ih =>
    intro code pos
    rw [writeBytes, ih, List.length_set]

theorem writeBytes_get_lt (bs : List Nat) :
    ∀ (code : List Nat) (pos i : Nat), i < pos →
      (writeBytes code pos bs).get? i = code.get? i := by
  induction bs with
  | nil => intro code pos i _; rfl
  | cons b bs ih =>
    intro code pos i hi
    rw [writeBytes, ih _ _ _ (Nat.lt_succ_of_lt hi)]
    exact List.get?_set_ne _ _ (Nat.ne_of_gt hi)

theorem toLEBytes_length (w : Nat) : ∀ n : Nat, (toLEBytes w n).length = w := by
  induction w with
  | zero => intro n; rfl
  | succ w ih => intro n; rw [toLEBytes, List.length_cons, ih]

theorem readJumpAux_write (w : Nat) :
    ∀ (code : List Nat) (pos n : Nat), pos + w ≤ code.length →
      readJumpAux (writeBytes code pos (toLEBytes w n)) pos w = .ok (n % 256 ^ w) := by
  induction w with
  | zero =>
    intro code pos n _
    simp [readJumpAux, Nat.pow_zero, Nat.mod_one]
  | succ w ih =>
    intro code pos n hle
    have hpos : pos < code.length := Nat.lt_of_lt_of_le (Nat.lt_add_of_pos_right (Nat.succ_pos w)) hle
    rw [toLEBytes, writeBytes]
    have hget : (writeBytes (code.set pos (n % 256)) (pos + 1) (toLEBytes w (n / 256))).get? pos
        = some (n % 256) := by
      rw [writeBytes_get_lt _ _ _ _ (Nat.lt_succ_self pos)]
      rw [List.get?_set_eq_of_lt _ hpos]
    have hrec : readJumpAux (writeBytes (code.set pos (n % 256)) (pos + 1) (toLEBytes w (n / 256)))
        (pos + 1) w = .ok (n / 256 % 256 ^ w) := by
      apply ih
      rw [List.length_set]
      omega
    rw [readJumpAux, readChunkB, hget, hrec]
    show Except.ok (n % 256 + 256 * (n / 256 % 256 ^ w)) = Except.ok (n % 256 ^ (w + 1))
    have : n % 256 + 256 * (n / 256 % 256 ^ w) = n % 256 ^ (w + 1) := by
      rw [pow_succ, mul_comm (256 ^ w) 256, Nat.mod_mul]
    rw [this]

theorem readJumpAux_error_iff (w : Nat) :
    ∀ (code : List Nat) (pos : Nat),
      (∃ e, readJumpAux code pos (w + 1) = .error e) ↔ code.length < pos + (w + 1) := by
  induction w with
  | zero =>
    intro code pos
    rw [readJumpAux, readChunkB]
    cases hg : code.get? pos with
    | none =>
      simp only [readJumpAux]
      have := List.get?_eq_none.mp hg
      constructor
      · intro _; omega
      · intro _; exact ⟨"Index out of Chunk", rfl⟩
    | some b =>
      simp only [readJumpAux]
      obtain ⟨hpos, -⟩ := List.get?_eq_some.mp hg
      constructor
      · rintro ⟨e, he⟩; exact absurd he (by simp)
      · intro hlt; omega
  | succ w ih =>
    intro code pos
    rw [readJumpAux, readChunkB]
    cases hg : code.get? pos with
    | none =>
      have := List.get?_eq_none.mp hg
      constructor
      · intro _; omega
      · intro _; exact ⟨"Index out of Chunk", rfl⟩
    | some b =>
      obtain ⟨hpos, -⟩ := List.get?_eq_some.mp hg
      cases hr : readJumpAux code (pos + 1) (w + 1) with
      | error e =>
        have h1 : code.length < (pos + 1) + (w + 1) := (ih code (pos + 1)).mp ⟨e, hr⟩
        constructor
        · intro _; omega
        · intro _; exact ⟨e, rfl⟩
      | ok r =>
        have h1 : ¬ code.length < (pos + 1) + (w + 1) := by
          intro h
          obtain ⟨e, he⟩ := (ih code (pos + 1)).mpr h
          rw [hr] at he; exact Except.noConfusion he
        constructor
        · rintro ⟨e, he⟩; exact absurd he (by simp)
        · intro hlt; exact absurd (by omega : code.length < (pos + 1) + (w + 1)) h1

theorem readJumpAux_ok (w : Nat) :
    ∀ (code : List Nat) (pos : Nat), pos + w ≤ code.length →
      readJumpAux code pos w = .ok (fromLE ((code.drop pos).take w)) := by
  induction w with
  | zero => intro code pos _; rfl
  | succ w ih =>
    intro code pos hle
    have hpos : pos < code.length := by omega
    have hdrop : code.drop pos = code.get ⟨pos, hpos⟩ :: code.drop (pos + 1) :=
      List.drop_eq_get_cons hpos
    have hget : code.get? pos = some (code.get ⟨pos, hpos⟩) := List.get?_eq_get hpos
    rw [readJumpAux, readChunkB, hget, ih code (pos + 1) (by omega), hdrop]
    rfl

theorem findRevDesc_append_self (d : UpvalueDesc) :
    ∀ ups : List UpvalueDesc, findRevDesc d ups = Option.none →
      findRevDesc d (ups ++ [d]) = some ups.length := by
  intro ups
  induction ups with
  | nil =>
    intro _
    simp [findRevDesc]
  | cons u rest ih =>
    intro h
    have hrest : findRevDesc d rest = Option.none := by
      rw [findRevDesc] at h
      cases hr : findRevDesc d rest with
      | none => rfl
      | some i => rw [hr] at h; exact Option.noConfusion h
    rw [List.cons_append, findRevDesc, ih hrest]
    rfl

theorem findLocalRev_none (name : String) :
    ∀ locals : List Local, (∀ l ∈ locals, l.name ≠ name) →
      findLocalRev name locals = Option.none := by
  intro locals
  induction locals with
  | nil => intro _; rfl
  | cons l rest ih =>
    intro h
    rw [findLocalRev, ih (fun x hx => h x (List.mem_cons_of_mem l hx))]
    rw [if_neg (h l (List.mem_cons_self l rest))]

/-! The claims. -/

/-- C1.  Refutation of "each open cell `Open(s)` is replaced by
`Closed(v)` where `v` is the value currently held in stack slot `s`" for
the `OP_RETURN` closing loop: `close_upvalues` stores
`Upvalue::Out(self.peek(0))` — the value at the top of the stack — not
`stack[s]`.  On the frame of
`fun outer() { var x = "outside"; fun inner() { print x; } return inner; }`
(`c1Stack`, captured slot 1 mapped to cell 0) the loop closes cell 0 to
the closure sitting at the stack top (slot 2), although slot 1 holds
`"outside"`; the two values differ.  The map entry removal, by contrast,
does happen. -/
theorem return_close_uses_stack_top :
    returnClose 0 c1Stack [(1, 0)] [Upvalue.stack 1]
      = ([], [Upvalue.out (LoxType.closure "inner")]) ∧
    c1Stack.get? 1 = some (LoxType.string "outside") ∧
    Upvalue.out (LoxType.closure "inner") ≠ Upvalue.out (LoxType.string "outside") := by
  refine ⟨rfl, rfl, ?_⟩
  intro h
  simp at h

/-- C2.  Refutation of "for every two Number values a and b, OP_EQUAL
pushes Bool(true) exactly when a == b": the `PartialEq` impl for
`LoxType` has arms only for `String` and `Bool`, so every Number/Number
comparison falls through to `false`; in particular `OP_EQUAL` on two
copies of `Number(1.0)` pushes `Bool(false)`. -/
theorem op_equal_number_always_false :
    (∀ a b : Float, loxEq (LoxType.number a) (LoxType.number b) = false) ∧
    run 8 ⟨[OP_CONSTANT, 0, OP_CONSTANT, 1, OP_EQUAL],
        [LoxType.number 1, LoxType.number 1]⟩ ⟨0, [], []⟩
      = some ⟨5, [LoxType.bool false], []⟩ :=
  ⟨fun _ _ => rfl, rfl⟩

/-- C3.  Refutation of "the stack height after executing each top-level
statement equals its height before": for `if (false) print 1;` the
compiler (`if_statement`, no-else path) emits no `OP_POP` at the jump
target, `OP_JUMP_IF_FALSE` does not pop, and so executing the emitted
chunk from an empty stack ends with the condition value still on the
stack (height 1, not 0). -/
theorem if_without_else_leaves_condition :
    ifFalsePrintChunk = .ok ⟨ifFalseCode, [LoxType.number 1]⟩ ∧
    run 32 ⟨ifFalseCode, [LoxType.number 1]⟩ ⟨0, [], []⟩
      = some ⟨14, [LoxType.bool false], []⟩ ∧
    [LoxType.bool false].length ≠ ([] : List Value).length :=
  ⟨rfl, rfl, by simp⟩

/-- C8 counterexample.  The `Display` impl does not follow the claimed
Lox conventions: the nil value prints as `Nil` (not `nil`), a function
prints as its bare name (not `<fn name>`), and an instance prints as
`Instance of NAME` (not `<NAME instance>`). -/
theorem display_lox_conventions_counterexample :
    display (fun _ => "") LoxType.none = "Nil" ∧ ("Nil" : String) ≠ "nil" ∧
    display (fun _ => "") (LoxType.function "f") = "f" ∧ ("f" : String) ≠ "<fn f>" ∧
    display (fun _ => "") (LoxType.inst "Pair") = "Instance of Pair" ∧
    ("Instance of Pair" : String) ≠ "<Pair instance>" :=
  ⟨rfl, by decide, rfl, by decide, rfl, by decide⟩

/-- C8 (amended).  The `Display` form of every runtime value: numbers
print via the host's default `f64` formatting (no unnecessary trailing
zeros), booleans as `true`/`false`, the nil value as `Nil`, strings
without surrounding quotes, functions and closures as their bare
function name, classes as their name, and instances as
`Instance of NAME`. -/
theorem display_forms :
    ∀ (numFmt : Float → String) (s : String) (n : Float) (b : Bool) (name c i : String),
      display numFmt (LoxType.string s) = s ∧
      display numFmt (LoxType.number n) = numFmt n ∧
      display numFmt (LoxType.bool b) = cond b "true" "false" ∧
      display numFmt LoxType.none = "Nil" ∧
      display numFmt (LoxType.function name) = name ∧
      display numFmt (LoxType.closure name) = name ∧
      display numFmt (LoxType.cls c) = c ∧
      display numFmt (LoxType.inst i) = "Instance of " ++ i :=
  fun _ _ _ _ _ _ _ => ⟨rfl, rfl, rfl, rfl, rfl, rfl, rfl, rfl⟩

/-- C5.  Truthiness: the test used by `OP_JUMP_IF_FALSE` and `OP_NOT`
holds exactly for `Nil` and `Bool(false)` — in particular `Number(0)`
and the empty string are truthy — and `if (x) print A; else print B;`
(compiled by `if_statement` into `ifElseChunk`, constants `[x, A, B]`)
prints `A` exactly when `x` is neither nil nor false. -/
theorem truthiness_if_selects :
    ifElseChunk (LoxType.bool true) (LoxType.string "A") (LoxType.string "B")
      = .ok ⟨ifElseCode, [LoxType.bool true, LoxType.string "A", LoxType.string "B"]⟩ ∧
    ∀ (x a b : Value),
      run 64 ⟨ifElseCode, [x, a, b]⟩ ⟨0, [], []⟩
        = some ⟨28, [], [if isFalsey x then b else a]⟩ ∧
      (isFalsey x = true ↔ (x = LoxType.none ∨ x = LoxType.bool false)) ∧
      isFalsey (LoxType.number 0) = false ∧
      isFalsey (LoxType.string "") = false := by
  refine ⟨rfl, ?_⟩
  intro x a b
  refine ⟨?_, ?_, rfl, rfl⟩
  · cases x with
    | bool v => cases v <;> rfl
    | none => rfl
    | string s => rfl
    | number n => rfl
    | function f => rfl
    | closure f => rfl
    | cls k => rfl
    | inst i => rfl
  · cases x with
    | bool v => cases v <;> simp [isFalsey]
    | none => simp [isFalsey]
    | string s => simp [isFalsey]
    | number n => simp [isFalsey]
    | function f => simp [isFalsey]
    | closure f => simp [isFalsey]
    | cls k => simp [isFalsey]
    | inst i => simp [isFalsey]

/-- C6.  The constant pool is capped at 256 entries per chunk:
`make_constant` errors exactly when the new constant's index would be
≥ 256, i.e. adding the 257th constant to a chunk fails at compile time
and any addition to a pool holding at most 255 entries (so any chunk
ending with ≤ 256 constants) succeeds. -/
theorem constant_pool_capacity :
    ∀ (c : CChunk) (v : Value),
      (256 ≤ c.constants.length → makeConstant c v = .error "Too many constants") ∧
      (c.constants.length < 256 →
        makeConstant c v
          = .ok ({ c with constants := c.constants ++ [v] }, c.constants.length)) := by
  intro c v
  constructor
  · intro h
    rw [makeConstant]
    exact if_pos h
  · intro h
    rw [makeConstant]
    exact if_neg (Nat.not_le.mpr h)

/-- C6 witness: a pool of 256 entries rejects the 257th constant; the
empty pool accepts a constant at index 0. -/
theorem constant_pool_capacity_witness :
    (256 ≤ (List.replicate 256 LoxType.none).length ∧
      makeConstant ⟨[], List.replicate 256 LoxType.none⟩ LoxType.none
        = .error "Too many constants") ∧
    (([] : List Value).length < 256 ∧
      makeConstant ⟨[], []⟩ LoxType.none = .ok (⟨[], [LoxType.none]⟩, 0)) :=
  ⟨⟨by simp only [List.length_replicate, le_refl],
    (constant_pool_capacity ⟨[], List.replicate 256 LoxType.none⟩ LoxType.none).1
      (by simp only [List.length_replicate, le_refl])⟩,
   ⟨by norm_num, (constant_pool_capacity ⟨[], []⟩ LoxType.none).2 (by norm_num)⟩⟩

/-- C7.  `OP_SET_GLOBAL` on a stack whose top is `v`: if the name is
unbound the step reports a runtime error and leaves the globals table
extensionally unchanged (the source inserts, sees `insert` returned
`None`, removes the fresh entry, and errors) and the stack untouched;
if the name is bound the step succeeds, rebinds the name to `v`, and
leaves `v` on the stack (the value is `peek`ed, never popped). -/
theorem set_global_atomic :
    ∀ (name : String) (globals : String → Option Value) (v : Value) (rest : List Value),
      (globals name = Option.none →
        (setGlobalStep (LoxType.string name) globals (rest ++ [v])).1.isSome = true ∧
        (setGlobalStep (LoxType.string name) globals (rest ++ [v])).2.1 = globals ∧
        (setGlobalStep (LoxType.string name) globals (rest ++ [v])).2.2 = rest ++ [v]) ∧
      (∀ old, globals name = some old →
        setGlobalStep (LoxType.string name) globals (rest ++ [v])
          = (Option.none, fun k => if k = name then some v else globals k, rest ++ [v])) := by
  intro name globals v rest
  constructor
  · intro h
    refine ⟨?_, ?_, ?_⟩
    · simp [setGlobalStep, LoxType.asString, List.getLast?_concat, h]
    · funext k
      by_cases hk : k = name
      · subst hk
        simp [setGlobalStep, LoxType.asString, List.getLast?_concat, h]
      · simp [setGlobalStep, LoxType.asString, List.getLast?_concat, h, hk]
    · simp [setGlobalStep, LoxType.asString, List.getLast?_concat, h]
  · intro old h
    simp [setGlobalStep, LoxType.asString, List.getLast?_concat, h]

/-- C7 witness: the two hypotheses instantiated — an unbound name
(everywhere-empty table) errors leaving the table untouched; a bound
name is rebound. -/
theorem set_global_atomic_witness :
    ((fun _ => (Option.none : Option Value)) "x" = Option.none ∧
      (setGlobalStep (LoxType.string "x") (fun _ => Option.none)
        ([] ++ [LoxType.string "v"])).2.1 = (fun _ => (Option.none : Option Value))) ∧
    ((fun k => if k = "x" then some (LoxType.string "old") else Option.none) "x"
        = some (LoxType.string "old") ∧
      setGlobalStep (LoxType.string "x")
          (fun k => if k = "x" then some (LoxType.string "old") else Option.none)
          ([] ++ [LoxType.string "v"])
        = (Option.none,
            fun k => if k = "x" then some (LoxType.string "v")
              else (fun k => if k = "x" then some (LoxType.string "old") else Option.none) k,
            [] ++ [LoxType.string "v"])) :=
  ⟨⟨rfl, ((set_global_atomic "x" (fun _ => Option.none) (LoxType.string "v") []).1 rfl).2.1⟩,
   ⟨by simp,
    (set_global_atomic "x" (fun k => if k = "x" then some (LoxType.string "old") else Option.none)
      (LoxType.string "v") []).2 (LoxType.string "old") (by simp)⟩⟩

/-- C4.  Upvalue identity.  (1) `OP_CLOSURE`'s is-local capture is
idempotent: once an address has been captured, capturing it again
returns the very same cell and changes neither the captures map nor the
heap — so two closures capturing the same stack address share one cell.
(2) The compiler's `add_upvalue!` is idempotent: adding a descriptor
with an `(index, is_local)` pair already in the table returns the
existing slot and leaves the table unchanged.  (3) Sharing is
observable: a write through a shared cell (open or closed) is seen by a
read through the same cell. -/
theorem upvalue_cells_shared :
    (∀ (address : Nat) (captures : List (Nat × CellId)) (heap : List Upvalue),
      captureLocal address (captureLocal address captures heap).2.1
          (captureLocal address captures heap).2.2
        = captureLocal address captures heap) ∧
    (∀ (ups : List UpvalueDesc) (d : UpvalueDesc),
      addUpvalue (addUpvalue ups d).2 d = addUpvalue ups d) ∧
    (∀ (stack : List Value) (heap : List Upvalue) (cid : CellId) (loc : Nat) (val : Value),
      heap.get? cid = some (Upvalue.stack loc) → loc < stack.length →
        getUpvalue cid (setUpvalue cid val stack heap).1 (setUpvalue cid val stack heap).2
          = val) ∧
    (∀ (stack : List Value) (heap : List Upvalue) (cid : CellId) (w val : Value),
      heap.get? cid = some (Upvalue.out w) →
        getUpvalue cid (setUpvalue cid val stack heap).1 (setUpvalue cid val stack heap).2
          = val) := by
  refine ⟨?_, ?_, ?_, ?_⟩
  · intro address captures heap
    cases hl : alistLookup captures address with
    | some cid => simp [captureLocal, hl]
    | none =>
      simp only [captureLocal, hl]
      simp [alistLookup, List.find?]
  · intro ups d
    cases hf : findRevDesc d ups with
    | some i => simp [addUpvalue, hf]
    | none =>
      simp only [addUpvalue, hf]
      rw [findRevDesc_append_self d ups hf]
  · intro stack heap cid loc val hcell hloc
    simp only [setUpvalue, hcell, getUpvalue]
    rw [List.get?_set_eq_of_lt _ hloc]
    rfl
  · intro stack heap cid w val hcell
    obtain ⟨hlt, -⟩ := List.get?_eq_some.mp hcell
    simp only [setUpvalue, hcell, getUpvalue]
    rw [List.get?_set_eq_of_lt _ hlt]

/-- C4 witness: the sharing hypotheses are satisfiable — an open cell 0
at slot 0 of a one-value stack; writing through it then reading through
it yields the written value. -/
theorem upvalue_cells_shared_witness :
    ([Upvalue.stack 0].get? 0 = some (Upvalue.stack 0) ∧ 0 < [LoxType.string "a"].length) ∧
    getUpvalue 0 (setUpvalue 0 (LoxType.string "b") [LoxType.string "a"] [Upvalue.stack 0]).1
        (setUpvalue 0 (LoxType.string "b") [LoxType.string "a"] [Upvalue.stack 0]).2
      = LoxType.string "b" :=
  ⟨⟨rfl, by norm_num⟩,
   upvalue_cells_shared.2.2.1 [LoxType.string "a"] [Upvalue.stack 0] 0 0 (LoxType.string "b")
     rfl (by norm_num)⟩

/-- C9.  `read_jump(pos)` decodes the fixed `USIZE`-wide operand at
`pos` as a little-endian unsigned integer (`fromLE` of the byte slice),
fails with an error exactly when one of the `USIZE` byte positions lies
outside the chunk, and reads back unchanged the offset that `patch_jump`
wrote over the placeholder (the offset a `usize` can hold: chunks are
shorter than `2 ^ 64`). -/
theorem read_jump_roundtrip :
    ∀ (code : List Nat) (cs : List Value) (pos : Nat),
      ((∃ e, readJump code pos = .error e) ↔ code.length < pos + USIZE) ∧
      (pos + USIZE ≤ code.length →
        readJump code pos = .ok (fromLE ((code.drop pos).take USIZE))) ∧
      (pos + USIZE ≤ code.length → code.length < 2 ^ 64 →
        readJump (patchJump ⟨code, cs⟩ pos).code pos
          = .ok (code.length - pos - USIZE)) := by
  intro code cs pos
  refine ⟨readJumpAux_error_iff 7 code pos, fun h => readJumpAux_ok USIZE code pos h, ?_⟩
  intro h hlen
  have h256 : (256 : Nat) ^ USIZE = 2 ^ 64 := by norm_num [USIZE]
  have hjump : code.length - pos - USIZE < 256 ^ USIZE := by
    rw [h256]; omega
  calc readJump (patchJump ⟨code, cs⟩ pos).code pos
      = readJumpAux (writeBytes code pos (toLEBytes USIZE (code.length - pos - USIZE)))
          pos USIZE := rfl
    _ = .ok ((code.length - pos - USIZE) % 256 ^ USIZE) :=
        readJumpAux_write USIZE code pos _ h
    _ = .ok (code.length - pos - USIZE) := by rw [Nat.mod_eq_of_lt hjump]

/-- C9 witness: on a 10-byte chunk of `0xff` placeholders, patching at
operand position 1 writes offset 1 and `read_jump 1` reads 1 back. -/
theorem read_jump_roundtrip_witness :
    (1 + USIZE ≤ (List.replicate 10 255).length ∧ (List.replicate 10 255).length < 2 ^ 64) ∧
    readJump (patchJump ⟨List.replicate 10 255, []⟩ 1).code 1
      = .ok ((List.replicate 10 255).length - 1 - USIZE) :=
  ⟨⟨by simp [USIZE], by simp⟩,
   (read_jump_roundtrip (List.replicate 10 255) [] 1).2.2 (by simp [USIZE]) (by simp)⟩

/-- C10.  `Scope::init` seeds the locals array with one slot-0 entry
holding the function's name token; inside the body, resolving the
function's own name (when no nested local shadows it) yields local slot
0; and `VM::call` bases the new frame at `stack.len() - arg_cnt - 1`, so
the frame's slot 0 is the callee closure itself — `OP_GET_LOCAL 0` reads
the currently executing closure and direct recursion needs no global
lookup. -/
theorem function_self_reference :
    (∀ token : String,
      (Scope.init token).locals = [{ name := token, depth := 0, isCaptured := false }]) ∧
    (∀ (fname : String) (extra : List Local) (d : Int) (ups : List UpvalueDesc),
      (∀ l ∈ extra, l.name ≠ fname) →
      resolveLocal fname ⟨(Scope.init fname).locals ++ extra, d, ups⟩ = .ok (some 0)) ∧
    (∀ (pre args : List Value) (callee : Value),
      callSlot (pre ++ callee :: args).length args.length = pre.length ∧
      (pre ++ callee :: args).get? (callSlot (pre ++ callee :: args).length args.length)
        = some callee) := by
  refine ⟨fun _ => rfl, ?_, ?_⟩
  · intro fname extra d ups h
    have hrest : findLocalRev fname extra = Option.none := findLocalRev_none fname extra h
    have hfind : findLocalRev fname ((Scope.init fname).locals ++ extra)
        = some (0, { name := fname, depth := 0, isCaptured := false }) := by
      show findLocalRev fname
          ({ name := fname, depth := 0, isCaptured := false } :: extra) = _
      rw [findLocalRev, hrest, if_pos rfl]
    simp only [resolveLocal, hfind]
    rw [if_neg (by decide : ¬ (0 : Int) = -1)]
  · intro pre args callee
    have hs : callSlot (pre ++ callee :: args).length args.length = pre.length := by
      simp only [callSlot, List.length_append, List.length_cons]
      omega
    refine ⟨hs, ?_⟩
    rw [hs, List.get?_append_right (le_refl pre.length)]
    simp

/-- C10 witness: inside `fun f(..) { var x = ...; ... f ... }` — one
non-shadowing local above the reserved slot — `f` resolves to slot 0. -/
theorem function_self_reference_witness :
    (∀ l ∈ [({ name := "x", depth := 1, isCaptured := false } : Local)], l.name ≠ "f") ∧
    resolveLocal "f"
        ⟨(Scope.init "f").locals ++ [{ name := "x", depth := 1, isCaptured := false }], 1, []⟩
      = .ok (some 0) :=
  ⟨by decide,
   function_self_reference.2.1 "f" [{ name := "x", depth := 1, isCaptured := false }] 1 []
     (by decide)⟩
